import Mathlib

/-!
Verification of `github-contribution-treemap-generator`.

This file gives a shallow embedding, in Lean 4, of the pure core of the
repository: the text-fit and color utilities (`src/utils.ts`), the SVG
treemap renderer (`src/treemap-renderer.ts`), and the repository
normalization step (`src/index.ts`).  JavaScript numbers are modelled as
rationals (`ℚ`), JavaScript strings as `List Char`, and the emitted SVG
markup as a list of structured elements carrying exactly the attribute
values that the renderer interpolates into its template strings.
-/

/-! ## Text-fit utility (`src/utils.ts`) -/

/-- `estimateTextWidth(text, fontSizePx)`: deterministic width
approximation `text.length * fontSizePx * 0.6`. -/
def estimateTextWidth (text : List Char) (fontSizePx : ℚ) : ℚ :=
  (text.length : ℚ) * fontSizePx * (3 / 5)

/-- The ellipsis appended by `truncateWithEllipsis` (one character,
U+2026, in the UTF-8 source). -/
def ellipsisChars : List Char := ['…']

/-- The binary-search loop inside `truncateWithEllipsis`:
`while (left <= right) { mid = floor((left+right)/2); ... }`. -/
def truncSearch (text : List Char) (maxWidthPx fontSizePx : ℚ)
    (left right : ℤ) (best : List Char) : List Char :=
  if hlr : left ≤ right then
    let mid := (left + right) / 2
    let candidate := text.take mid.toNat ++ ellipsisChars
    if estimateTextWidth candidate fontSizePx ≤ maxWidthPx then
      truncSearch text maxWidthPx fontSizePx (mid + 1) right candidate
    else
      truncSearch text maxWidthPx fontSizePx left (mid - 1) best
  else best
termination_by (right + 1 - left).toNat
decreasing_by
  · omega
  · omega

/-- `truncateWithEllipsis(text, maxWidthPx, fontSizePx)`. -/
def truncateWithEllipsis (text : List Char) (maxWidthPx fontSizePx : ℚ) :
    List Char :=
  if estimateTextWidth text fontSizePx ≤ maxWidthPx then text
  else if maxWidthPx ≤ 0 then []
  else
    let best := truncSearch text maxWidthPx fontSizePx 0 (text.length : ℤ) []
    if best = [] then ellipsisChars else best

/-- The shrink loop of `chooseFontSizeToFit`:
`while (size > minPx && estimateTextWidth(text, size) > maxWidthPx) size -= 1`. -/
def shrinkLoop (text : List Char) (maxWidthPx minPx size : ℚ) : ℚ :=
  if h : minPx < size ∧ maxWidthPx < estimateTextWidth text size then
    shrinkLoop text maxWidthPx minPx (size - 1)
  else size
termination_by (⌈size - minPx⌉).toNat
decreasing_by
  have h1 : (0 : ℚ) < size - minPx := by linarith [h.1]
  have h2 : (0 : ℤ) < ⌈size - minPx⌉ := Int.ceil_pos.mpr h1
  have h3 : ⌈size - 1 - minPx⌉ = ⌈size - minPx⌉ - 1 := by
    rw [show size - 1 - minPx = size - minPx - ((1 : ℤ) : ℚ) by push_cast; ring,
      Int.ceil_sub_int]
  omega

/-- `chooseFontSizeToFit(text, maxWidthPx, desiredPx, minPx)`: start at
`min(desiredPx, 48)` clamped up to `minPx`, shrink while too wide, and
return the `0` sentinel if even the final size does not fit. -/
def chooseFontSizeToFit (text : List Char) (maxWidthPx desiredPx minPx : ℚ) :
    ℚ :=
  let size := max (min desiredPx 48) minPx
  let final := shrinkLoop text maxWidthPx minPx size
  if maxWidthPx < estimateTextWidth text final then 0 else final

/-! ## Constants (`src/constants.ts`) -/

/-- `FONT_SIZES.MIN` (6px global minimum font size). -/
def fontMin : ℚ := 6

/-- `FONT_SIZES.GAP` (3px inter-line gap). -/
def fontGap : ℚ := 3

/-- One step of the renderer's lock-step decrement:
`if (x > FONT_SIZES.MIN) x--`. -/
def dec1 (c : ℚ) : ℚ := if fontMin < c then c - 1 else c

/-! ## SVG renderer (`src/treemap-renderer.ts`) -/

/-- The font-size degradation loop of `render` (lines 108–117): while the
running total exceeds the available height and some line is above the
minimum, decrement every line still above the minimum and recompute the
total as `nameSize + GAP + ownerSize + (starSize > 0 ? GAP + starSize : 0)`. -/
def fitLoop (availableHeight totalH nameSize ownerSize starSize : ℚ) :
    ℚ × ℚ × ℚ :=
  if h : availableHeight < totalH ∧
      (fontMin < nameSize ∨ fontMin < ownerSize ∨ fontMin < starSize) then
    let n := dec1 nameSize
    let o := dec1 ownerSize
    let s := dec1 starSize
    fitLoop availableHeight
      (n + fontGap + o + (if 0 < s then fontGap + s else 0)) n o s
  else (nameSize, ownerSize, starSize)
termination_by
  (⌈nameSize⌉ - 6).toNat + (⌈ownerSize⌉ - 6).toNat + (⌈starSize⌉ - 6).toNat
decreasing_by
  have key : ∀ c : ℚ, (⌈dec1 c⌉ - 6).toNat ≤ (⌈c⌉ - 6).toNat ∧
      (fontMin < c → (⌈dec1 c⌉ - 6).toNat < (⌈c⌉ - 6).toNat) := by
    intro c
    have h3 : ⌈c - 1⌉ = ⌈c⌉ - 1 := by
      rw [show c - 1 = c - ((1 : ℤ) : ℚ) by push_cast; ring, Int.ceil_sub_int]
    unfold dec1
    constructor
    · split
      · omega
      · omega
    · intro hc
      rw [if_pos hc]
      have hc6 : ((6 : ℤ) : ℚ) < c := by
        have : (6 : ℚ) < c := hc
        exact_mod_cast this
      have h1 : (6 : ℤ) < ⌈c⌉ := Int.lt_ceil.mpr hc6
      omega
  have a1 := (key nameSize).1
  have a2 := (key ownerSize).1
  have a3 := (key starSize).1
  rcases h.2 with hc | hc | hc
  · have := (key nameSize).2 hc; omega
  · have := (key ownerSize).2 hc; omega
  · have := (key starSize).2 hc; omega

/-- The height-adjustment block of `render` (lines 96–118).  If the
chosen sizes plus 3px gaps exceed the available interior height, scale
every size by `availableHeight / totalH` (floored, clamped at the 6px
minimum), recompute the running total, and run the decrement loop.  The
recomputed total mirrors source line 106, which reads
`nameSize + FONT_SIZES.MIN + ownerSize + ...`, i.e. it uses the 6px
minimum constant in the position of the 3px gap between the first two
lines (lines 97 and 116 use `FONT_SIZES.GAP` there). -/
def adjustSizes (availableHeight nameSize ownerSize starSize : ℚ) :
    ℚ × ℚ × ℚ :=
  let totalH :=
    nameSize + fontGap + ownerSize + (if 0 < starSize then fontGap + starSize else 0)
  if availableHeight < totalH ∧ 0 < totalH then
    let factor := availableHeight / totalH
    let n := max fontMin ((⌊nameSize * factor⌋ : ℤ) : ℚ)
    let o := max fontMin ((⌊ownerSize * factor⌋ : ℤ) : ℚ)
    let s :=
      if 0 < starSize then max fontMin ((⌊starSize * factor⌋ : ℤ) : ℚ)
      else starSize
    let totalH2 := n + fontMin + o + (if 0 < s then fontGap + s else 0)
    fitLoop availableHeight totalH2 n o s
  else (nameSize, ownerSize, starSize)

/-! ## Star-count formatting and XML escaping (`src/utils.ts`) -/

/-- Decimal digits of a natural number. -/
def natRepr (n : ℕ) : List Char := Nat.toDigits 10 n

/-- `String(z)` for an integer. -/
def jsIntRepr (z : ℤ) : List Char :=
  if z < 0 then '-' :: natRepr (-z).toNat else natRepr z.toNat

/-- `String(q)` for a JavaScript number.  Integral values print their
decimal digits; non-integral values (never produced by the call sites,
which format tenths separately) are truncated to their floor. -/
def jsNumRepr (q : ℚ) : List Char :=
  if q.den = 1 then jsIntRepr q.num else jsIntRepr ⌊q⌋

/-- Decimal numeral of `z / 10` as produced by `String()`: the tenths
digit is suppressed when zero. -/
def tenthsRepr (z : ℤ) : List Char :=
  (if z < 0 then ['-'] else []) ++
    (if z.natAbs % 10 = 0 then natRepr (z.natAbs / 10)
     else natRepr (z.natAbs / 10) ++ '.' :: natRepr (z.natAbs % 10))

/-- `q.toFixed(1)`: rounded half-up to one decimal place, the tenths
digit always printed. -/
def toFixed1 (q : ℚ) : List Char :=
  let m := (round (q * 10) : ℤ)
  (if m < 0 then ['-'] else []) ++
    natRepr (m.natAbs / 10) ++ '.' :: natRepr (m.natAbs % 10)

/-- `replace(/\.0$/, '')`. -/
def stripDotZero (s : List Char) : List Char :=
  match s.reverse with
  | '0' :: '.' :: rest => rest.reverse
  | _ => s

/-- `formatStars(n)` (`src/utils.ts` lines 1–6). -/
def formatStars (n : ℚ) : List Char :=
  if n < 1000 then jsNumRepr n
  else if n < 10000 then stripDotZero (toFixed1 (n / 1000)) ++ ['k']
  else if n < 1000000 then tenthsRepr (round (n / 100)) ++ ['k']
  else tenthsRepr (round (n / 1000000 * 10)) ++ ['m']

/-- One global single-character replacement, as in
`String.prototype.replace` with a `/x/g` pattern. -/
def replaceAll (c : Char) (rep : List Char) (s : List Char) : List Char :=
  s.flatMap fun ch => if ch = c then rep else [ch]

/-- `escapeXml(s)`: escape `&`, `<`, `>`, `"`, `'` in that order. -/
def escapeXml (s : List Char) : List Char :=
  replaceAll '\'' ('&' :: '#' :: '3' :: '9' :: [';'])
    (replaceAll '"' "&quot;".toList
      (replaceAll '>' "&gt;".toList
        (replaceAll '<' "&lt;".toList
          (replaceAll '&' "&amp;".toList s))))

/-! ## Color interpolation (`src/utils.ts` lines 64–89) -/

/-- Numeric value of a hex digit (`parseInt(_, 16)` on `[a-fA-F0-9]`). -/
def hexDigitVal (c : Char) : ℕ :=
  if 48 ≤ c.toNat ∧ c.toNat ≤ 57 then c.toNat - 48
  else if 97 ≤ c.toNat ∧ c.toNat ≤ 102 then c.toNat - 87
  else if 65 ≤ c.toNat ∧ c.toNat ≤ 70 then c.toNat - 55
  else 0

/-- The character class `[a-f\d]` with the `i` flag. -/
def isHexDigit (c : Char) : Bool :=
  (48 ≤ c.toNat && c.toNat ≤ 57) || (97 ≤ c.toNat && c.toNat ≤ 102) ||
    (65 ≤ c.toNat && c.toNat ≤ 70)

/-- The optional leading `#` of the pattern `^#?(..)(..)(..)$`. -/
def stripHash : List Char → List Char
  | '#' :: rest => rest
  | s => s

/-- `hexToRgb(hex)`: parse `#RRGGBB` (case-insensitive, optional `#`);
malformed input degrades to black. -/
def hexToRgb (hex : List Char) : ℕ × ℕ × ℕ :=
  match stripHash hex with
  | [a, b, c, d, e, f] =>
    if isHexDigit a && isHexDigit b && isHexDigit c && isHexDigit d &&
        isHexDigit e && isHexDigit f then
      (16 * hexDigitVal a + hexDigitVal b, 16 * hexDigitVal c + hexDigitVal d,
        16 * hexDigitVal e + hexDigitVal f)
    else (0, 0, 0)
  | _ => (0, 0, 0)

/-- Lowercase hex digit characters. -/
def hexChar (n : ℕ) : Char := "0123456789abcdef".toList.getD n '0'

/-- `v.toString(16).padStart(2, '0')` for `v ≤ 255`. -/
def toHexPair (n : ℕ) : List Char := [hexChar (n / 16), hexChar (n % 16)]

/-- `Math.max(0, Math.min(255, Math.round(v)))`. -/
def clampRound (v : ℚ) : ℕ := (max 0 (min 255 (round v))).toNat

/-- `rgbToHex(r, g, b)`. -/
def rgbToHex (r g b : ℚ) : List Char :=
  '#' :: (toHexPair (clampRound r) ++ toHexPair (clampRound g) ++
    toHexPair (clampRound b))

/-- `interpolateHexColor(minHex, maxHex, t)`. -/
def interpolateHexColor (minHex maxHex : List Char) (t : ℚ) : List Char :=
  let a := hexToRgb minHex
  let b := hexToRgb maxHex
  let clamped := max 0 (min 1 t)
  rgbToHex ((a.1 : ℚ) + ((b.1 : ℚ) - (a.1 : ℚ)) * clamped)
    ((a.2.1 : ℚ) + ((b.2.1 : ℚ) - (a.2.1 : ℚ)) * clamped)
    ((a.2.2 : ℚ) + ((b.2.2 : ℚ) - (a.2.2 : ℚ)) * clamped)

/-- Whether a string matches `^#?([a-f\d]{2}){3}$` (case-insensitive). -/
def isHex6 (s : List Char) : Bool :=
  ((stripHash s).length == 6) && (stripHash s).all isHexDigit

/-- The value a color string round-trips to through `hexToRgb` followed
by `rgbToHex` (normalizing case, the `#` prefix and malformed input). -/
def roundtripHex (s : List Char) : List Char :=
  rgbToHex ((hexToRgb s).1 : ℚ) ((hexToRgb s).2.1 : ℚ) ((hexToRgb s).2.2 : ℚ)

/-! ## Data model (`src/types.ts`) -/

/-- A normalized repository record. -/
structure NormalizedRepository where
  id : List Char
  label : List Char
  owner : List Char
  stars : ℚ
  contribs : ℚ
  isOwnedByUser : Bool
deriving DecidableEq

/-- A laid-out treemap leaf (`TreemapNode`): payload plus the rectangle
`[x0, x1] × [y0, y1]` assigned by the layout engine. -/
structure Leaf where
  data : NormalizedRepository
  x0 : ℚ
  y0 : ℚ
  x1 : ℚ
  y1 : ℚ
deriving DecidableEq

/-- Renderer configuration (`TreemapConfig`). -/
structure TreemapConfig where
  width : ℚ
  height : ℚ
  canvasBg : List Char
  accent : List Char
  heatMin : List Char
  heatMax : List Char
  textPrimary : List Char
  textSecondary : List Char
  fontFamily : List Char
deriving DecidableEq

/-- `DEFAULT_CONFIG` from `src/constants.ts` (CSS quoting of the font
names omitted). -/
def DEFAULT_CONFIG : TreemapConfig where
  width := 465
  height := 165
  canvasBg := "#21232A".toList
  accent := "#58BCDA".toList
  heatMin := "#31343C".toList
  heatMax := "#58BCDA".toList
  textPrimary := "#FFFFFF".toList
  textSecondary := "rgba(255,255,255,0.75)".toList
  fontFamily := "Segoe UI, Ubuntu, Helvetica Neue, Sans-Serif".toList

/-- One `<tspan>` with the attribute values the renderer interpolates. -/
structure Tspan where
  x : ℤ
  dy : ℚ
  fill : List Char
  fontSize : ℚ
  fontWeight : ℕ
  content : List Char
deriving DecidableEq

/-- A structured SVG element of the output document: the background or a
per-leaf rectangle, a per-leaf clip path, a per-leaf clipped text block,
or the empty-state caption. -/
inductive SvgElem where
  | rect (x y w h : ℚ) (fill : List Char)
  | clipPath (id : ℕ) (x y w h : ℚ)
  | textBlock (x y : ℤ) (clipId : ℕ) (fontFamily : List Char)
      (spans : List Tspan)
  | captionText (x y : ℤ) (fill : List Char) (fontSize : ℚ)
      (fontFamily : List Char) (content : List Char)
deriving DecidableEq

/-- Everything `render` computes for one leaf before emitting markup. -/
structure LeafRender where
  x : ℤ
  y : ℤ
  w : ℤ
  h : ℤ
  fill : List Char
  clipId : ℕ
  maxTextWidth : ℚ
  startX : ℤ
  startY : ℤ
  nameSize : ℚ
  ownerSize : ℚ
  starSize : ℚ
  starsLabel : List Char
  starsText : List Char
  spans : List Tspan
deriving DecidableEq

/-! ## Heat range and per-leaf rendering (`src/treemap-renderer.ts`) -/

/-- One step of the `minContrib` / `maxContrib` pass (lines 33–37): the
contribution is clamped to `≥ 0` and the running bounds updated; `none`
stands for the initial `(Infinity, -Infinity)` state, which the first
leaf always replaces. -/
def contribStep (acc : Option (ℚ × ℚ)) (node : Leaf) : Option (ℚ × ℚ) :=
  let c := max 0 node.data.contribs
  match acc with
  | none => some (c, c)
  | some (lo, hi) => some (min lo c, max hi c)

/-- The single pass computing `minContrib` / `maxContrib` (lines 29–40);
the `isFinite` fallback makes the empty list yield `(0, 0)`. -/
def contribRange (leaves : List Leaf) : ℚ × ℚ :=
  match leaves.foldl contribStep none with
  | none => (0, 0)
  | some p => p

/-- The per-leaf heat value (lines 51–57). -/
def heatT (lo hi : ℚ) (d : NormalizedRepository) : ℚ :=
  if hi = lo then (if 0 < hi then 1 else 0)
  else (max 0 d.contribs - lo) / max 1 (hi - lo)

/-- `x || FONT_SIZES.MIN` applied to a `chooseFontSizeToFit` result: the
`0` sentinel is replaced by the 6px minimum. -/
def orFontMin (q : ℚ) : ℚ := if q = 0 then fontMin else q

/-- `const x = Math.max(0, Math.floor(node.x0))` (line 44). -/
def leafX (node : Leaf) : ℤ := max 0 ⌊node.x0⌋

/-- `const y = Math.max(0, Math.floor(node.y0))` (line 45). -/
def leafY (node : Leaf) : ℤ := max 0 ⌊node.y0⌋

/-- `const w = Math.max(2, Math.floor(node.x1 - node.x0))` (line 46). -/
def leafW (node : Leaf) : ℤ := max 2 ⌊node.x1 - node.x0⌋

/-- `const h = Math.max(2, Math.floor(node.y1 - node.y0))` (line 47). -/
def leafH (node : Leaf) : ℤ := max 2 ⌊node.y1 - node.y0⌋

/-- `Math.max(0, w - padding * 2)` with the 4px padding (line 64). -/
def maxTextWidthOf (node : Leaf) : ℚ := max 0 ((leafW node : ℚ) - 4 * 2)

/-- `Math.max(0, h - padding * 2)` (line 67). -/
def availableHeightOf (node : Leaf) : ℚ := max 0 ((leafH node : ℚ) - 4 * 2)

/-- `Math.min(FONT_SIZES.NAME_DESIRED, Math.floor(h * 0.34))` (line 70). -/
def nameDesiredOf (node : Leaf) : ℚ :=
  min 16 ((⌊(leafH node : ℚ) * (34 / 100)⌋ : ℤ) : ℚ)

/-- `Math.max(MIN, Math.floor(nameDesired * OWNER_RATIO))` (line 71). -/
def ownerDesiredOf (node : Leaf) : ℚ :=
  max fontMin ((⌊nameDesiredOf node * (3 / 4)⌋ : ℤ) : ℚ)

/-- `Math.max(MIN, Math.floor(nameDesired * STARS_RATIO))` (line 72). -/
def starDesiredOf (node : Leaf) : ℚ :=
  max fontMin ((⌊nameDesiredOf node * (9 / 10)⌋ : ℤ) : ℚ)

/-- The chosen name-line size before height adjustment (lines 74–77). -/
def nameSize0Of (node : Leaf) : ℚ :=
  max fontMin (orFontMin (chooseFontSizeToFit node.data.label
    (maxTextWidthOf node) (nameDesiredOf node) fontMin))

/-- The chosen owner-line size before height adjustment (lines 78–81). -/
def ownerSize0Of (node : Leaf) : ℚ :=
  max fontMin (orFontMin (chooseFontSizeToFit node.data.owner
    (maxTextWidthOf node) (ownerDesiredOf node) fontMin))

/-- The star-line label `"★ " + formatStars(d.stars)`, built only when
the star count is at least 100 (lines 86–87). -/
def starsLabelOf (d : NormalizedRepository) : List Char :=
  if 100 ≤ d.stars then '★' :: ' ' :: formatStars d.stars else []

/-- The chosen star-line size before height adjustment: `0` unless the
star count is at least 100 (lines 83–93). -/
def starSize0Of (node : Leaf) : ℚ :=
  if 100 ≤ node.data.stars then
    max fontMin (orFontMin (chooseFontSizeToFit (starsLabelOf node.data)
      (maxTextWidthOf node) (starDesiredOf node) fontMin))
  else 0

/-- The three line sizes after the height adjustment (lines 96–118). -/
def adjustedOf (node : Leaf) : ℚ × ℚ × ℚ :=
  adjustSizes (availableHeightOf node) (nameSize0Of node) (ownerSize0Of node)
    (starSize0Of node)

/-- The star line's text: truncated only when the adjusted star size is
positive, empty otherwise (lines 123–124). -/
def starsTextOf (node : Leaf) : List Char :=
  if 0 < (adjustedOf node).2.2 then
    truncateWithEllipsis (starsLabelOf node.data) (maxTextWidthOf node)
      (adjustedOf node).2.2
  else []

/-- The body of the `leaves.forEach` loop in `render` (lines 42–141):
geometry clamping, heat fill, font-size selection and height adjustment,
truncation, and the `<tspan>` lines. -/
def renderLeaf (cfg : TreemapConfig) (lo hi : ℚ) (idx : ℕ) (node : Leaf) :
    LeafRender :=
  let d := node.data
  let nameSize := (adjustedOf node).1
  let ownerSize := (adjustedOf node).2.1
  let starSize := (adjustedOf node).2.2
  let nameText := truncateWithEllipsis d.label (maxTextWidthOf node) nameSize
  let ownerText := truncateWithEllipsis d.owner (maxTextWidthOf node) ownerSize
  let startX : ℤ := leafX node + 4
  let dyOwner : ℚ := max fontGap ((round (ownerSize + fontGap) : ℤ) : ℚ)
  let dyStar : ℚ := max fontGap ((round (starSize + fontGap) : ℤ) : ℚ)
  { x := leafX node, y := leafY node, w := leafW node, h := leafH node,
    fill := interpolateHexColor cfg.heatMin cfg.heatMax (heatT lo hi d),
    clipId := idx,
    maxTextWidth := maxTextWidthOf node, startX := startX,
    startY := leafY node + 4,
    nameSize := nameSize, ownerSize := ownerSize, starSize := starSize,
    starsLabel := starsLabelOf d, starsText := starsTextOf node,
    spans :=
      ⟨startX, 0, cfg.textPrimary, nameSize, 700, escapeXml nameText⟩ ::
      ⟨startX, dyOwner, cfg.textSecondary, ownerSize, 400,
        escapeXml ownerText⟩ ::
      (if starsTextOf node = [] then []
       else [⟨startX, dyStar, cfg.textPrimary, starSize, 700,
         escapeXml (starsTextOf node)⟩]) }

/-- The `<clipPath>` emitted for one leaf (line 62). -/
def clipElemOf (r : LeafRender) : SvgElem :=
  .clipPath r.clipId (r.x : ℚ) (r.y : ℚ) (r.w : ℚ) (r.h : ℚ)

/-- The filled `<rect>` emitted for one leaf (line 61). -/
def rectElemOf (r : LeafRender) : SvgElem :=
  .rect (r.x : ℚ) (r.y : ℚ) (r.w : ℚ) (r.h : ℚ) r.fill

/-- The clipped `<text>` block emitted for one leaf (line 140). -/
def textElemOf (cfg : TreemapConfig) (r : LeafRender) : SvgElem :=
  .textBlock r.startX r.startY r.clipId cfg.fontFamily r.spans

/-- The empty-state caption message. -/
def noReposMsg : List Char := "No repositories found".toList

/-- The background `<rect>` emitted by `wrapSvg` (line 162). -/
def backgroundElem (cfg : TreemapConfig) : SvgElem :=
  .rect 0 0 cfg.width cfg.height cfg.canvasBg

/-- `renderEmptyState()` (lines 146–155): background plus one centered
caption. -/
def renderEmptyState (cfg : TreemapConfig) : List SvgElem :=
  [backgroundElem cfg,
    .captionText ⌊cfg.width / 2⌋ ⌊cfg.height / 2⌋ cfg.textPrimary 14
      cfg.fontFamily (escapeXml noReposMsg)]

/-- `render(leaves)` (lines 18–144): the structured output document, in
the order of the assembled markup — background, clip paths (`<defs>`),
per-leaf rectangles, per-leaf text blocks. -/
def render (cfg : TreemapConfig) (leaves : List Leaf) : List SvgElem :=
  if leaves = [] then renderEmptyState cfg
  else
    let lo := (contribRange leaves).1
    let hi := (contribRange leaves).2
    let lrs := leaves.enum.map fun p => renderLeaf cfg lo hi p.1 p.2
    backgroundElem cfg ::
      (lrs.map clipElemOf ++ lrs.map rectElemOf ++ lrs.map (textElemOf cfg))

/-! ## Repository normalization (`src/index.ts`) -/

/-- A raw repository record from the GraphQL client. -/
structure Repository where
  name : List Char
  nameWithOwner : List Char
  stargazerCount : ℚ
  isFork : Bool
  ownerLogin : List Char
  contribs : ℚ
deriving DecidableEq

/-- Lowercase a string (`String.prototype.toLowerCase`). -/
def lowerStr (s : List Char) : List Char := s.map Char.toLower

/-- `repo.owner?.login || (repo.nameWithOwner?.split('/')?.[0] ?? '')`. -/
def repoOwner (repo : Repository) : List Char :=
  if repo.ownerLogin = [] then (List.splitOn '/' repo.nameWithOwner).headD []
  else repo.ownerLogin

/-- `repo.name || (repo.nameWithOwner?.split('/')?.[1] ?? '')`. -/
def repoName (repo : Repository) : List Char :=
  if repo.name = [] then (List.splitOn '/' repo.nameWithOwner).getD 1 []
  else repo.name

/-- One iteration of the `normalizeRepositories` loop (lines 92–113):
the produced record, or nothing when the repository is excluded, its
owner hidden, or it is owned by the queried user. -/
def normalizeOne (username : List Char)
    (excludeReposSet hideOwnersSet : List (List Char)) (repo : Repository) :
    List NormalizedRepository :=
  let owner := repoOwner repo
  let name := repoName repo
  let nameWithOwner := owner ++ '/' :: name
  let keyName := lowerStr name
  let keyFull := lowerStr nameWithOwner
  if keyName ∈ excludeReposSet ∨ keyFull ∈ excludeReposSet then []
  else if lowerStr owner ∈ hideOwnersSet then []
  else
    let isOwnedByUser := lowerStr owner == lowerStr username
    if isOwnedByUser then []
    else
      [{ id := nameWithOwner, label := name, owner := owner,
         stars := max 0 repo.stargazerCount,
         contribs := max 0 repo.contribs, isOwnedByUser := isOwnedByUser }]

/-- `normalizeRepositories(repos, options)` (lines 81–116). -/
def normalizeRepositories (repos : List Repository) (username : List Char)
    (excludeReposSet hideOwnersSet : List (List Char)) :
    List NormalizedRepository :=
  repos.flatMap (normalizeOne username excludeReposSet hideOwnersSet)

/-- The font sizes an element contributes to the output markup: the
`font-size` attributes of a text block's `<tspan>`s, or the caption's
one. -/
def emittedFontSizes : SvgElem → List ℚ
  | .rect _ _ _ _ _ => []
  | .clipPath _ _ _ _ _ => []
  | .textBlock _ _ _ _ spans => spans.map Tspan.fontSize
  | .captionText _ _ _ fs _ _ => [fs]

/-- A rational that is (the cast of) an integer — the form every
font-size value computed by the renderer takes. -/
def IsIntQ (q : ℚ) : Prop := ∃ z : ℤ, q = (z : ℚ)

/-! ## Concrete instances used to exercise the definitions -/

/-- A raw repository owned by `bob`. -/
def repoBobTool : Repository where
  name := "tool".toList
  nameWithOwner := "bob/tool".toList
  stargazerCount := 5
  isFork := false
  ownerLogin := "bob".toList
  contribs := 2

/-- The normalized record `normalizeRepositories` produces for
`repoBobTool`. -/
def itemBobTool : NormalizedRepository where
  id := "bob/tool".toList
  label := "tool".toList
  owner := "bob".toList
  stars := 5
  contribs := 2
  isOwnedByUser := false

/-- A laid-out leaf carrying `itemBobTool` (contribution count 2). -/
def leafA : Leaf where
  data := itemBobTool
  x0 := 0
  y0 := 0
  x1 := 100
  y1 := 50

/-- A second leaf with a higher contribution count. -/
def leafB : Leaf where
  data := { itemBobTool with
            id := "carol/lib".toList
            label := "lib".toList
            owner := "carol".toList
            contribs := 7 }
  x0 := 100
  y0 := 0
  x1 := 200
  y1 := 50

/-- A 200×36 leaf with 150 stars: its rectangle interior is 28px tall
while the desired line sizes are 12/9/10. -/
def leafC1 : Leaf where
  data := { itemBobTool with
            id := "me/repo".toList
            label := ['r', 'e', 'p', 'o']
            owner := ['m', 'e']
            stars := 150 }
  x0 := 0
  y0 := 0
  x1 := 200
  y1 := 36

/-! ## Theorems -/

/-- C3: for every leaf processed by `render`, however degenerate the
input rectangle (x1 < x0, y1 < y0, fractional coordinates), the emitted
rectangle and its matching clip path use `x = max(0, ⌊x0⌋)`,
`y = max(0, ⌊y0⌋)`, `width = max(2, ⌊x1 - x0⌋)` and
`height = max(2, ⌊y1 - y0⌋)`; all emitted positions are non-negative
integers and all emitted widths and heights are integers `≥ 2`. -/
theorem leaf_geometry_clamped (cfg : TreemapConfig) (lo hi : ℚ) (idx : ℕ)
    (node : Leaf) :
    (renderLeaf cfg lo hi idx node).x = max 0 ⌊node.x0⌋ ∧
    (renderLeaf cfg lo hi idx node).y = max 0 ⌊node.y0⌋ ∧
    (renderLeaf cfg lo hi idx node).w = max 2 ⌊node.x1 - node.x0⌋ ∧
    (renderLeaf cfg lo hi idx node).h = max 2 ⌊node.y1 - node.y0⌋ ∧
    0 ≤ (renderLeaf cfg lo hi idx node).x ∧
    0 ≤ (renderLeaf cfg lo hi idx node).y ∧
    2 ≤ (renderLeaf cfg lo hi idx node).w ∧
    2 ≤ (renderLeaf cfg lo hi idx node).h ∧
    rectElemOf (renderLeaf cfg lo hi idx node) =
      SvgElem.rect ((max 0 ⌊node.x0⌋ : ℤ) : ℚ) ((max 0 ⌊node.y0⌋ : ℤ) : ℚ)
        ((max 2 ⌊node.x1 - node.x0⌋ : ℤ) : ℚ)
        ((max 2 ⌊node.y1 - node.y0⌋ : ℤ) : ℚ)
        (renderLeaf cfg lo hi idx node).fill ∧
    clipElemOf (renderLeaf cfg lo hi idx node) =
      SvgElem.clipPath idx ((max 0 ⌊node.x0⌋ : ℤ) : ℚ)
        ((max 0 ⌊node.y0⌋ : ℤ) : ℚ) ((max 2 ⌊node.x1 - node.x0⌋ : ℤ) : ℚ)
        ((max 2 ⌊node.y1 - node.y0⌋ : ℤ) : ℚ) :=
  ⟨rfl, rfl, rfl, rfl, le_max_left 0 _, le_max_left 0 _, le_max_left 2 _,
    le_max_left 2 _, rfl, rfl⟩

/-- C8: `render` on the empty leaf list returns the designed empty
state: the background rectangle and a single centered caption whose text
is exactly "No repositories found" (which XML-escaping leaves
unchanged), and nothing else — no per-leaf rectangle, clip path or text
block. -/
theorem render_empty_state (cfg : TreemapConfig) :
    render cfg [] =
      [backgroundElem cfg,
        SvgElem.captionText ⌊cfg.width / 2⌋ ⌊cfg.height / 2⌋ cfg.textPrimary
          14 cfg.fontFamily noReposMsg] ∧
    escapeXml noReposMsg = noReposMsg ∧ (render cfg []).length = 2 := by
  have hesc : escapeXml noReposMsg = noReposMsg := by decide
  have hr : render cfg [] = renderEmptyState cfg := rfl
  refine ⟨?_, hesc, ?_⟩
  · rw [hr]
    unfold renderEmptyState
    rw [hesc]
  · rw [hr]
    rfl

/-- C10: every record surviving `normalizeRepositories` has an owner
login differing case-insensitively from the queried username, and its
`isOwnedByUser` flag is `false`; repositories owned by the user are
dropped. -/
theorem normalize_drops_own_repos (repos : List Repository)
    (username : List Char) (ex hide : List (List Char))
    (item : NormalizedRepository)
    (hmem : item ∈ normalizeRepositories repos username ex hide) :
    lowerStr item.owner ≠ lowerStr username ∧ item.isOwnedByUser = false := by
  obtain ⟨repo, -, hrepo⟩ := List.mem_flatMap.mp hmem
  simp only [normalizeOne] at hrepo
  split at hrepo
  · simp at hrepo
  · split at hrepo
    · simp at hrepo
    · split at hrepo
      · simp at hrepo
      · rename_i howned
        simp only [List.mem_singleton] at hrepo
        subst hrepo
        refine ⟨?_, ?_⟩
        · intro hEq
          exact howned (by simpa using hEq)
        · simpa using howned

theorem normalize_drops_own_repos_witness :
    itemBobTool ∈ normalizeRepositories [repoBobTool] "alice".toList [] [] ∧
    (lowerStr itemBobTool.owner ≠ lowerStr "alice".toList ∧
      itemBobTool.isOwnedByUser = false) :=
  ⟨by decide,
    normalize_drops_own_repos [repoBobTool] "alice".toList [] [] itemBobTool
      (by decide)⟩

theorem interp_at_zero (m M : List Char) :
    interpolateHexColor m M 0 = roundtripHex m := by
  unfold interpolateHexColor roundtripHex
  norm_num

theorem interp_at_one (m M : List Char) :
    interpolateHexColor m M 1 = roundtripHex M := by
  simp only [interpolateHexColor, roundtripHex]
  have h : ∀ a b : ℕ, (a : ℚ) + ((b : ℚ) - (a : ℚ)) * max 0 (min 1 1) = b := by
    intro a b; norm_num
  rw [h, h, h]

/-- C7: for well-formed 6-hex-digit colors, interpolating at `t = 0`
yields the min color and at `t = 1` the max color, up to the round-trip
through hex parsing and re-encoding. -/
theorem interpolate_endpoints (m M : List Char) (h1 : isHex6 m = true)
    (h2 : isHex6 M = true) :
    interpolateHexColor m M 0 = roundtripHex m ∧
    interpolateHexColor m M 1 = roundtripHex M :=
  ⟨interp_at_zero m M, interp_at_one m M⟩

theorem interpolate_endpoints_witness :
    (isHex6 "#31343C".toList = true ∧ isHex6 "#58BCDA".toList = true) ∧
    (interpolateHexColor "#31343C".toList "#58BCDA".toList 0 =
        roundtripHex "#31343C".toList ∧
      interpolateHexColor "#31343C".toList "#58BCDA".toList 1 =
        roundtripHex "#58BCDA".toList) :=
  ⟨⟨by decide, by decide⟩, interpolate_endpoints _ _ (by decide) (by decide)⟩

theorem contribStep_fold_spec (ls : List Leaf) :
    ∀ lo hi : ℚ, ∃ lo' hi',
      ls.foldl contribStep (some (lo, hi)) = some (lo', hi') ∧
      lo' ≤ lo ∧ hi ≤ hi' ∧
      (∀ l ∈ ls, lo' ≤ max 0 l.data.contribs ∧ max 0 l.data.contribs ≤ hi') ∧
      (lo' = lo ∨ ∃ l ∈ ls, max 0 l.data.contribs = lo') ∧
      (hi' = hi ∨ ∃ l ∈ ls, max 0 l.data.contribs = hi') := by
  induction ls with
  | nil =>
    intro lo hi
    exact ⟨lo, hi, rfl, le_refl _, le_refl _, by simp, Or.inl rfl, Or.inl rfl⟩
  | cons x xs ih =>
    intro lo hi
    obtain ⟨lo', hi', hfold, hlo, hhi, hmem, hatlo, hathi⟩ :=
      ih (min lo (max 0 x.data.contribs)) (max hi (max 0 x.data.contribs))
    refine ⟨lo', hi', ?_, ?_, ?_, ?_, ?_, ?_⟩
    · simpa [contribStep] using hfold
    · exact le_trans hlo (min_le_left _ _)
    · exact le_trans (le_max_left _ _) hhi
    · intro l hl
      rcases List.mem_cons.mp hl with rfl | hl
      · exact ⟨le_trans hlo (min_le_right _ _),
          le_trans (le_max_right hi _) hhi⟩
      · exact hmem l hl
    · rcases hatlo with h | ⟨l, hl, hle⟩
      · rcases min_choice lo (max 0 x.data.contribs) with hm | hm
        · exact Or.inl (h.trans hm)
        · exact Or.inr ⟨x, List.mem_cons_self x xs, (h.trans hm).symm⟩
      · exact Or.inr ⟨l, List.mem_cons_of_mem x hl, hle⟩
    · rcases hathi with h | ⟨l, hl, hle⟩
      · rcases max_choice hi (max 0 x.data.contribs) with hm | hm
        · exact Or.inl (h.trans hm)
        · exact Or.inr ⟨x, List.mem_cons_self x xs, (h.trans hm).symm⟩
      · exact Or.inr ⟨l, List.mem_cons_of_mem x hl, hle⟩

theorem contribRange_spec (leaves : List Leaf) (hne : leaves ≠ []) :
    (∀ l ∈ leaves, (contribRange leaves).1 ≤ max 0 l.data.contribs ∧
      max 0 l.data.contribs ≤ (contribRange leaves).2) ∧
    (∃ l ∈ leaves, max 0 l.data.contribs = (contribRange leaves).1) ∧
    (∃ l ∈ leaves, max 0 l.data.contribs = (contribRange leaves).2) := by
  match leaves, hne with
  | x :: xs, _ =>
    obtain ⟨lo', hi', hfold, hlo, hhi, hmem, hatlo, hathi⟩ :=
      contribStep_fold_spec xs (max 0 x.data.contribs) (max 0 x.data.contribs)
    have hrange : contribRange (x :: xs) = (lo', hi') := by
      unfold contribRange
      rw [List.foldl_cons]
      rw [show contribStep none x =
        some (max 0 x.data.contribs, max 0 x.data.contribs) from rfl, hfold]
    rw [hrange]
    refine ⟨?_, ?_, ?_⟩
    · intro l hl
      rcases List.mem_cons.mp hl with rfl | hl
      · exact ⟨hlo, hhi⟩
      · exact hmem l hl
    · rcases hatlo with h | ⟨l, hl, hle⟩
      · exact ⟨x, List.mem_cons_self x xs, h.symm⟩
      · exact ⟨l, List.mem_cons_of_mem x hl, hle⟩
    · rcases hathi with h | ⟨l, hl, hle⟩
      · exact ⟨x, List.mem_cons_self x xs, h.symm⟩
      · exact ⟨l, List.mem_cons_of_mem x hl, hle⟩

theorem heatT_mem_bounds (lo hi : ℚ) (d : NormalizedRepository)
    (hlo : lo ≤ max 0 d.contribs) (hhi : max 0 d.contribs ≤ hi) :
    0 ≤ heatT lo hi d ∧ heatT lo hi d ≤ 1 := by
  unfold heatT
  split
  · split <;> norm_num
  · have hden : (0 : ℚ) < max 1 (hi - lo) := lt_of_lt_of_le one_pos (le_max_left _ _)
    constructor
    · exact div_nonneg (by linarith) (le_of_lt hden)
    · rw [div_le_one hden]
      exact le_trans (by linarith) (le_max_right 1 (hi - lo))

/-- C2: `minContrib` / `maxContrib` are the min and max over all leaves
of the contribution clamped to `≥ 0`; each leaf's heat value follows the
`(contrib - min) / max(1, max - min)` formula with the degenerate-range
override, always lies in `[0, 1]`, and is fed to `interpolateHexColor`
with the configured heat colors to produce the leaf's fill. -/
theorem heat_normalization_bounds (cfg : TreemapConfig) (leaves : List Leaf)
    (leaf : Leaf) (hmem : leaf ∈ leaves) (idx : ℕ) :
    (∀ l ∈ leaves, (contribRange leaves).1 ≤ max 0 l.data.contribs ∧
      max 0 l.data.contribs ≤ (contribRange leaves).2) ∧
    (∃ l ∈ leaves, max 0 l.data.contribs = (contribRange leaves).1) ∧
    (∃ l ∈ leaves, max 0 l.data.contribs = (contribRange leaves).2) ∧
    0 ≤ heatT (contribRange leaves).1 (contribRange leaves).2 leaf.data ∧
    heatT (contribRange leaves).1 (contribRange leaves).2 leaf.data ≤ 1 ∧
    (renderLeaf cfg (contribRange leaves).1 (contribRange leaves).2 idx
        leaf).fill =
      interpolateHexColor cfg.heatMin cfg.heatMax
        (heatT (contribRange leaves).1 (contribRange leaves).2 leaf.data) := by
  obtain ⟨hbounds, hatlo, hathi⟩ :=
    contribRange_spec leaves (List.ne_nil_of_mem hmem)
  obtain ⟨h0, h1⟩ := heatT_mem_bounds _ _ leaf.data (hbounds leaf hmem).1
    (hbounds leaf hmem).2
  exact ⟨hbounds, hatlo, hathi, h0, h1, rfl⟩

theorem heat_normalization_bounds_witness :
    leafA ∈ [leafA, leafB] ∧
    ((∀ l ∈ [leafA, leafB],
        (contribRange [leafA, leafB]).1 ≤ max 0 l.data.contribs ∧
        max 0 l.data.contribs ≤ (contribRange [leafA, leafB]).2) ∧
      (∃ l ∈ [leafA, leafB],
        max 0 l.data.contribs = (contribRange [leafA, leafB]).1) ∧
      (∃ l ∈ [leafA, leafB],
        max 0 l.data.contribs = (contribRange [leafA, leafB]).2) ∧
      0 ≤ heatT (contribRange [leafA, leafB]).1 (contribRange [leafA, leafB]).2
          leafA.data ∧
      heatT (contribRange [leafA, leafB]).1 (contribRange [leafA, leafB]).2
          leafA.data ≤ 1 ∧
      (renderLeaf DEFAULT_CONFIG (contribRange [leafA, leafB]).1
          (contribRange [leafA, leafB]).2 0 leafA).fill =
        interpolateHexColor DEFAULT_CONFIG.heatMin DEFAULT_CONFIG.heatMax
          (heatT (contribRange [leafA, leafB]).1
            (contribRange [leafA, leafB]).2 leafA.data)) :=
  ⟨by decide,
    heat_normalization_bounds DEFAULT_CONFIG [leafA, leafB] leafA (by decide) 0⟩

theorem truncSearch_width_le (text : List Char) (w f : ℚ) (l r : ℤ)
    (best : List Char) (hb : estimateTextWidth best f ≤ w) :
    estimateTextWidth (truncSearch text w f l r best) f ≤ w := by
  induction l, r, best using truncSearch.induct text w f with
  | case1 l r best hlr mid candidate hcand ih =>
    rw [truncSearch, dif_pos hlr]
    dsimp only
    rw [if_pos hcand]
    exact ih hcand
  | case2 l r best hlr mid candidate hcand ih =>
    rw [truncSearch, dif_pos hlr]
    dsimp only
    rw [if_neg hcand]
    exact ih hb
  | case3 l r best hlr =>
    rw [truncSearch, dif_neg hlr]
    exact hb

theorem truncSearch_all_fail (text : List Char) (w f : ℚ)
    (hall : ∀ m : ℕ, ¬ estimateTextWidth (text.take m ++ ellipsisChars) f ≤ w)
    (l r : ℤ) : truncSearch text w f l r [] = [] := by
  suffices h : ∀ (l r : ℤ) (best : List Char), best = [] →
      truncSearch text w f l r best = [] from h l r [] rfl
  intro l r best
  induction l, r, best using truncSearch.induct text w f with
  | case1 l r best hlr mid candidate hcand ih =>
    exact fun _ => absurd hcand (hall mid.toNat)
  | case2 l r best hlr mid candidate hcand ih =>
    intro hb
    rw [truncSearch, dif_pos hlr]
    dsimp only
    rw [if_neg hcand]
    exact ih hb
  | case3 l r best hlr =>
    intro hb
    rw [truncSearch, dif_neg hlr]
    exact hb

/-- C5: `truncateWithEllipsis` is idempotent — truncating an already
truncated string at the same width budget and font size returns it
unchanged. -/
theorem truncateWithEllipsis_idem (text : List Char) (w f : ℚ) :
    truncateWithEllipsis (truncateWithEllipsis text w f) w f =
      truncateWithEllipsis text w f := by
  by_cases h1 : estimateTextWidth text f ≤ w
  · have e : truncateWithEllipsis text w f = text := by
      rw [truncateWithEllipsis, if_pos h1]
    rw [e]
    exact e
  · by_cases h2 : w ≤ 0
    · have e : truncateWithEllipsis text w f = [] := by
        rw [truncateWithEllipsis, if_neg h1, if_pos h2]
      rw [e]
      by_cases h3 : estimateTextWidth [] f ≤ w
      · rw [truncateWithEllipsis, if_pos h3]
      · rw [truncateWithEllipsis, if_neg h3, if_pos h2]
    · have h2' : 0 < w := lt_of_not_le h2
      have hb : estimateTextWidth ([] : List Char) f ≤ w := by
        simp only [estimateTextWidth, List.length_nil, Nat.cast_zero, zero_mul]
        linarith
      have hwb : estimateTextWidth
          (truncSearch text w f 0 (text.length : ℤ) []) f ≤ w :=
        truncSearch_width_le text w f _ _ _ hb
      have e : truncateWithEllipsis text w f =
          if truncSearch text w f 0 (text.length : ℤ) [] = [] then
            ellipsisChars
          else truncSearch text w f 0 (text.length : ℤ) [] := by
        rw [truncateWithEllipsis, if_neg h1, if_neg h2]
      by_cases h4 : truncSearch text w f 0 (text.length : ℤ) [] = []
      · rw [if_pos h4] at e
        rw [e]
        by_cases h5 : estimateTextWidth ellipsisChars f ≤ w
        · rw [truncateWithEllipsis, if_pos h5]
        · have h5' : w < (1 : ℚ) * f * (3 / 5) := by
            have := lt_of_not_le h5
            simpa [estimateTextWidth, ellipsisChars] using this
          have hf : 0 < f := by nlinarith
          have hall : ∀ m : ℕ,
              ¬ estimateTextWidth (ellipsisChars.take m ++ ellipsisChars) f ≤
                w := by
            intro m hcon
            have hlen : (1 : ℚ) ≤
                ((ellipsisChars.take m ++ ellipsisChars).length : ℚ) := by
              have : 1 ≤ (ellipsisChars.take m ++ ellipsisChars).length := by
                simp [ellipsisChars]
              exact_mod_cast this
            have hstep :
                (1 : ℚ) * f * (3 / 5) ≤
                  ((ellipsisChars.take m ++ ellipsisChars).length : ℚ) * f *
                    (3 / 5) := by
              have h35 : (0 : ℚ) ≤ f * (3 / 5) := by positivity
              calc (1 : ℚ) * f * (3 / 5) = 1 * (f * (3 / 5)) := by ring
                _ ≤ ((ellipsisChars.take m ++ ellipsisChars).length : ℚ) *
                    (f * (3 / 5)) := by
                    exact mul_le_mul_of_nonneg_right hlen h35
                _ = ((ellipsisChars.take m ++ ellipsisChars).length : ℚ) * f *
                    (3 / 5) := by ring
            rw [estimateTextWidth] at hcon
            linarith
          rw [truncateWithEllipsis, if_neg h5, if_neg h2,
            truncSearch_all_fail ellipsisChars w f hall]
          simp
      · rw [if_neg h4] at e
        rw [e]
        rw [truncateWithEllipsis, if_pos hwb]

theorem shrinkLoop_le (text : List Char) (w m : ℚ) (s : ℚ) :
    shrinkLoop text w m s ≤ s := by
  induction s using shrinkLoop.induct text w m with
  | case1 s h ih =>
    rw [shrinkLoop, dif_pos h]
    linarith
  | case2 s h =>
    rw [shrinkLoop, dif_neg h]

theorem shrinkLoop_w_mono (text : List Char) (m w1 w2 : ℚ) (hw : w1 ≤ w2)
    (s : ℚ) : shrinkLoop text w1 m s ≤ shrinkLoop text w2 m s := by
  induction s using shrinkLoop.induct text w1 m with
  | case1 s h ih =>
    by_cases h2 : m < s ∧ w2 < estimateTextWidth text s
    · have e2 : shrinkLoop text w2 m s = shrinkLoop text w2 m (s - 1) := by
        conv_lhs => rw [shrinkLoop]
        rw [dif_pos h2]
      rw [shrinkLoop, dif_pos h, e2]
      exact ih
    · have e2 : shrinkLoop text w2 m s = s := by
        conv_lhs => rw [shrinkLoop]
        rw [dif_neg h2]
      rw [shrinkLoop, dif_pos h, e2]
      have := shrinkLoop_le text w1 m (s - 1)
      linarith
  | case2 s h =>
    have h2 : ¬ (m < s ∧ w2 < estimateTextWidth text s) := by
      intro hc
      exact h ⟨hc.1, lt_of_le_of_lt hw hc.2⟩
    rw [shrinkLoop, dif_neg h]
    conv_rhs => rw [shrinkLoop]
    rw [dif_neg h2]

theorem shrinkLoop_ge (text : List Char) (w m : ℚ) (k : ℕ) :
    m ≤ shrinkLoop text w m (m + (k : ℚ)) := by
  induction k with
  | zero =>
    have hc : ¬ (m < m + ((0 : ℕ) : ℚ) ∧
        w < estimateTextWidth text (m + ((0 : ℕ) : ℚ))) := by
      intro hc
      have := hc.1
      norm_num at this
    rw [shrinkLoop, dif_neg hc]
    norm_num
  | succ k ih =>
    rw [shrinkLoop]
    by_cases hc : m < m + (((k + 1 : ℕ)) : ℚ) ∧
        w < estimateTextWidth text (m + (((k + 1 : ℕ)) : ℚ))
    · rw [dif_pos hc, show m + (((k + 1 : ℕ)) : ℚ) - 1 = m + (k : ℚ) by
        push_cast; ring]
      exact ih
    · rw [dif_neg hc]
      have : (0 : ℚ) ≤ ((k + 1 : ℕ) : ℚ) := Nat.cast_nonneg _
      linarith

theorem shrinkLoop_post (text : List Char) (w m : ℚ) (s : ℚ) :
    shrinkLoop text w m s ≤ m ∨
    estimateTextWidth text (shrinkLoop text w m s) ≤ w := by
  induction s using shrinkLoop.induct text w m with
  | case1 s h ih =>
    rw [shrinkLoop, dif_pos h]
    exact ih
  | case2 s h =>
    rw [shrinkLoop, dif_neg h]
    rcases not_and_or.mp h with h | h
    · exact Or.inl (not_lt.mp h)
    · exact Or.inr (not_lt.mp h)

/-- C6 (counterexample): the claim that `chooseFontSizeToFit` is
monotone in the width budget for every `desiredPx` / `minPx` fails:
with negative parameters the `0` "cannot fit" sentinel exceeds the
(negative) size returned at a wider budget.  At `text = ""`,
`desiredPx = -5`, `minPx = -10` the budgets `-1 ≤ 0` give sizes `0`
and `-5`. -/
theorem chooseFontSizeToFit_mono_cex :
    ((-1 : ℚ) ≤ 0) ∧
    ¬ (chooseFontSizeToFit [] (-1) (-5) (-10) ≤
        chooseFontSizeToFit [] 0 (-5) (-10)) := by
  have hs1 : shrinkLoop [] (-1) (-10) (-5) = -10 := by
    rw [shrinkLoop]; norm_num [estimateTextWidth]
    rw [shrinkLoop]; norm_num [estimateTextWidth]
    rw [shrinkLoop]; norm_num [estimateTextWidth]
    rw [shrinkLoop]; norm_num [estimateTextWidth]
    rw [shrinkLoop]; norm_num [estimateTextWidth]
    rw [shrinkLoop]; norm_num [estimateTextWidth]
  have hs2 : shrinkLoop [] 0 (-10) (-5) = -5 := by
    rw [shrinkLoop]; norm_num [estimateTextWidth]
  have e1 : chooseFontSizeToFit [] (-1) (-5) (-10) = 0 := by
    simp only [chooseFontSizeToFit]
    norm_num [hs1, estimateTextWidth]
  have e2 : chooseFontSizeToFit [] 0 (-5) (-10) = -5 := by
    simp only [chooseFontSizeToFit]
    norm_num [hs2, estimateTextWidth]
  refine ⟨by norm_num, ?_⟩
  rw [e1, e2]
  norm_num

/-- C6 (amended): `chooseFontSizeToFit` is monotone in the width budget
when `desiredPx` and `minPx` are natural numbers, as the renderer always
supplies them: for `w1 ≤ w2` the size returned at `w1` never exceeds the
size returned at `w2`. -/
theorem chooseFontSizeToFit_mono_nat (text : List Char) (d m : ℕ)
    (w1 w2 : ℚ) (hw : w1 ≤ w2) :
    chooseFontSizeToFit text w1 (d : ℚ) (m : ℚ) ≤
      chooseFontSizeToFit text w2 (d : ℚ) (m : ℚ) := by
  have hmle : m ≤ max (min d 48) m := le_max_right _ _
  have hs0 : max (min (d : ℚ) 48) (m : ℚ) =
      (m : ℚ) + ((max (min d 48) m - m : ℕ) : ℚ) := by
    rw [Nat.cast_sub hmle]
    push_cast
    ring
  simp only [chooseFontSizeToFit, hs0]
  set k : ℕ := max (min d 48) m - m with hk
  set f1 := shrinkLoop text w1 (m : ℚ) ((m : ℚ) + (k : ℚ)) with hf1
  set f2 := shrinkLoop text w2 (m : ℚ) ((m : ℚ) + (k : ℚ)) with hf2
  have hf1ge : (m : ℚ) ≤ f1 := shrinkLoop_ge text w1 (m : ℚ) k
  have hf2ge : (m : ℚ) ≤ f2 := shrinkLoop_ge text w2 (m : ℚ) k
  have hmono : f1 ≤ f2 := shrinkLoop_w_mono text (m : ℚ) w1 w2 hw _
  by_cases hfit1 : w1 < estimateTextWidth text f1
  · rw [if_pos hfit1]
    by_cases hfit2 : w2 < estimateTextWidth text f2
    · rw [if_pos hfit2]
    · rw [if_neg hfit2]
      have : (0 : ℚ) ≤ (m : ℚ) := Nat.cast_nonneg m
      linarith
  · rw [if_neg hfit1]
    have hfit2 : ¬ (w2 < estimateTextWidth text f2) := by
      rcases shrinkLoop_post text w2 (m : ℚ) ((m : ℚ) + (k : ℚ)) with hp | hp
      · rw [← hf2] at hp
        have hEq : f1 = f2 := le_antisymm hmono (le_trans hp hf1ge)
        rw [← hEq]
        exact not_lt.mpr (le_trans (not_lt.mp hfit1) hw)
      · rw [← hf2] at hp
        exact not_lt.mpr hp
    rw [if_neg hfit2]
    exact hmono

theorem chooseFontSizeToFit_mono_nat_witness :
    ((10 : ℚ) ≤ 20) ∧
    chooseFontSizeToFit "ab".toList 10 ((16 : ℕ) : ℚ) ((6 : ℕ) : ℚ) ≤
      chooseFontSizeToFit "ab".toList 20 ((16 : ℕ) : ℚ) ((6 : ℕ) : ℚ) :=
  ⟨by norm_num, chooseFontSizeToFit_mono_nat "ab".toList 16 6 10 20 (by norm_num)⟩

theorem isIntQ_dec1 (c : ℚ) (hi : IsIntQ c) (hc : fontMin ≤ c) :
    IsIntQ (dec1 c) ∧ fontMin ≤ dec1 c := by
  obtain ⟨z, rfl⟩ := hi
  unfold dec1
  split
  · rename_i h
    have hz : (6 : ℤ) < z := by
      have : (6 : ℚ) < (z : ℚ) := h
      exact_mod_cast this
    constructor
    · exact ⟨z - 1, by push_cast; ring⟩
    · show fontMin ≤ (z : ℚ) - 1
      rw [fontMin]
      have : ((7 : ℤ) : ℚ) ≤ (z : ℚ) := by exact_mod_cast hz
      push_cast at this
      linarith
  · exact ⟨⟨z, rfl⟩, hc⟩

theorem dec1_zero : dec1 0 = 0 := by
  unfold dec1 fontMin
  norm_num

theorem fitLoop_inv (avail totalH na ow st : ℚ)
    (hn : IsIntQ na ∧ fontMin ≤ na) (ho : IsIntQ ow ∧ fontMin ≤ ow)
    (hs : st = 0 ∨ (IsIntQ st ∧ fontMin ≤ st)) :
    (IsIntQ (fitLoop avail totalH na ow st).1 ∧
      fontMin ≤ (fitLoop avail totalH na ow st).1) ∧
    (IsIntQ (fitLoop avail totalH na ow st).2.1 ∧
      fontMin ≤ (fitLoop avail totalH na ow st).2.1) ∧
    ((st = 0 ∧ (fitLoop avail totalH na ow st).2.2 = 0) ∨
      (fontMin ≤ st ∧ IsIntQ (fitLoop avail totalH na ow st).2.2 ∧
        fontMin ≤ (fitLoop avail totalH na ow st).2.2)) := by
  induction totalH, na, ow, st using fitLoop.induct avail with
  | case1 totalH na ow st h n o s ih =>
    rw [fitLoop, dif_pos h]
    dsimp only
    have hn2 := isIntQ_dec1 na hn.1 hn.2
    have ho2 := isIntQ_dec1 ow ho.1 ho.2
    have hs2 : dec1 st = 0 ∨ (IsIntQ (dec1 st) ∧ fontMin ≤ dec1 st) := by
      rcases hs with h0 | ⟨hi, hm⟩
      · left
        rw [h0, dec1_zero]
      · right
        exact isIntQ_dec1 st hi hm
    obtain ⟨g1, g2, g3⟩ := ih hn2 ho2 hs2
    refine ⟨g1, g2, ?_⟩
    rcases g3 with ⟨hz, hres⟩ | ⟨hge, hres⟩
    · rcases hs with h0 | ⟨hi, hm⟩
      · exact Or.inl ⟨h0, hres⟩
      · have h6 := (isIntQ_dec1 st hi hm).2
        have hz2 : dec1 st = 0 := hz
        rw [hz2] at h6
        exact absurd h6 (by norm_num [fontMin])
    · rcases hs with h0 | ⟨hi, hm⟩
      · have hge2 : fontMin ≤ dec1 st := hge
        rw [h0, dec1_zero] at hge2
        exact absurd hge2 (by norm_num [fontMin])
      · exact Or.inr ⟨hm, hres⟩
  | case2 totalH na ow st h =>
    rw [fitLoop, dif_neg h]
    refine ⟨hn, ho, ?_⟩
    rcases hs with h0 | ⟨hi, hm⟩
    · exact Or.inl ⟨h0, h0⟩
    · exact Or.inr ⟨hm, hi, hm⟩

theorem isIntQ_maxFloor (x : ℚ) :
    IsIntQ (max fontMin ((⌊x⌋ : ℤ) : ℚ)) ∧
    fontMin ≤ max fontMin ((⌊x⌋ : ℤ) : ℚ) := by
  constructor
  · refine ⟨max 6 ⌊x⌋, ?_⟩
    rw [fontMin]
    push_cast
    rfl
  · exact le_max_left _ _

theorem adjustSizes_inv (avail na ow st : ℚ)
    (hn : IsIntQ na ∧ fontMin ≤ na) (ho : IsIntQ ow ∧ fontMin ≤ ow)
    (hs : st = 0 ∨ (IsIntQ st ∧ fontMin ≤ st)) :
    (IsIntQ (adjustSizes avail na ow st).1 ∧
      fontMin ≤ (adjustSizes avail na ow st).1) ∧
    (IsIntQ (adjustSizes avail na ow st).2.1 ∧
      fontMin ≤ (adjustSizes avail na ow st).2.1) ∧
    ((st = 0 ∧ (adjustSizes avail na ow st).2.2 = 0) ∨
      (fontMin ≤ st ∧ IsIntQ (adjustSizes avail na ow st).2.2 ∧
        fontMin ≤ (adjustSizes avail na ow st).2.2)) := by
  rcases hs with h0 | ⟨hi, hm⟩
  · subst h0
    have hlt0 : ¬ (0 : ℚ) < 0 := lt_irrefl 0
    simp only [adjustSizes, if_neg hlt0]
    split
    · obtain ⟨g1, g2, g3⟩ := fitLoop_inv avail _ _ _ 0
        (isIntQ_maxFloor _) (isIntQ_maxFloor _) (Or.inl rfl)
      refine ⟨g1, g2, ?_⟩
      rcases g3 with ⟨hz, hres⟩ | ⟨hge, hres⟩
      · exact Or.inl ⟨trivial, hres⟩
      · exact absurd hge (by norm_num [fontMin])
    · exact ⟨hn, ho, Or.inl ⟨trivial, rfl⟩⟩
  · have hlt : (0 : ℚ) < st := by
      have h6 : (0 : ℚ) < fontMin := by norm_num [fontMin]
      linarith
    simp only [adjustSizes, if_pos hlt]
    split
    · obtain ⟨g1, g2, g3⟩ := fitLoop_inv avail _ _ _ _
        (isIntQ_maxFloor _) (isIntQ_maxFloor _)
        (Or.inr (isIntQ_maxFloor _))
      refine ⟨g1, g2, ?_⟩
      rcases g3 with ⟨hz, hres⟩ | ⟨hge, hres⟩
      · have h6 := (isIntQ_maxFloor (st *
          (avail / (na + fontGap + ow + (fontGap + st))))).2
        rw [hz] at h6
        exact absurd h6 (by norm_num [fontMin])
      · exact Or.inr ⟨hm, hres⟩
    · exact ⟨hn, ho, Or.inr ⟨hm, hi, hm⟩⟩

theorem isIntQ_shrinkLoop (text : List Char) (w m : ℚ) (s : ℚ)
    (hs : IsIntQ s) : IsIntQ (shrinkLoop text w m s) := by
  induction s using shrinkLoop.induct text w m with
  | case1 s h ih =>
    obtain ⟨z, rfl⟩ := hs
    rw [shrinkLoop, dif_pos h]
    exact ih ⟨z - 1, by push_cast; ring⟩
  | case2 s h =>
    rw [shrinkLoop, dif_neg h]
    exact hs

theorem isIntQ_choose (text : List Char) (w d m : ℚ) (hd : IsIntQ d)
    (hm : IsIntQ m) : IsIntQ (chooseFontSizeToFit text w d m) := by
  obtain ⟨zd, rfl⟩ := hd
  obtain ⟨zm, rfl⟩ := hm
  simp only [chooseFontSizeToFit]
  split
  · exact ⟨0, by norm_num⟩
  · exact isIntQ_shrinkLoop text w _ _ ⟨max (min zd 48) zm, by push_cast; rfl⟩

theorem size0_good (text : List Char) (w d : ℚ) (hd : IsIntQ d) :
    IsIntQ (max fontMin (orFontMin (chooseFontSizeToFit text w d fontMin))) ∧
    fontMin ≤
      max fontMin (orFontMin (chooseFontSizeToFit text w d fontMin)) := by
  refine ⟨?_, le_max_left _ _⟩
  have hc := isIntQ_choose text w d fontMin hd ⟨6, by rw [fontMin]; norm_num⟩
  obtain ⟨z, hz⟩ := hc
  unfold orFontMin
  split
  · exact ⟨6, by rw [fontMin]; norm_num⟩
  · rw [hz]
    exact ⟨max 6 z, by rw [fontMin]; push_cast; rfl⟩

theorem nameSize0_good (node : Leaf) :
    IsIntQ (nameSize0Of node) ∧ fontMin ≤ nameSize0Of node := by
  rw [nameSize0Of]
  refine size0_good _ _ _ ?_
  exact ⟨min 16 ⌊(leafH node : ℚ) * (34 / 100)⌋, by
    rw [nameDesiredOf]; push_cast; rfl⟩

theorem ownerSize0_good (node : Leaf) :
    IsIntQ (ownerSize0Of node) ∧ fontMin ≤ ownerSize0Of node := by
  rw [ownerSize0Of]
  refine size0_good _ _ _ ?_
  rw [ownerDesiredOf]
  exact (isIntQ_maxFloor _).1

theorem starSize0_good_pos (node : Leaf) (hstar : 100 ≤ node.data.stars) :
    IsIntQ (starSize0Of node) ∧ fontMin ≤ starSize0Of node := by
  rw [starSize0Of, if_pos hstar]
  refine size0_good _ _ _ ?_
  rw [starDesiredOf]
  exact (isIntQ_maxFloor _).1

theorem adjusted_good (node : Leaf) :
    (IsIntQ (adjustedOf node).1 ∧ fontMin ≤ (adjustedOf node).1) ∧
    (IsIntQ (adjustedOf node).2.1 ∧ fontMin ≤ (adjustedOf node).2.1) ∧
    ((¬ 100 ≤ node.data.stars ∧ (adjustedOf node).2.2 = 0) ∨
      (100 ≤ node.data.stars ∧ IsIntQ (adjustedOf node).2.2 ∧
        fontMin ≤ (adjustedOf node).2.2)) := by
  by_cases hstar : 100 ≤ node.data.stars
  · obtain ⟨g1, g2, g3⟩ := adjustSizes_inv (availableHeightOf node)
      (nameSize0Of node) (ownerSize0Of node) (starSize0Of node)
      (nameSize0_good node) (ownerSize0_good node)
      (Or.inr (starSize0_good_pos node hstar))
    refine ⟨g1, g2, ?_⟩
    rcases g3 with ⟨hz, _⟩ | ⟨_, hres⟩
    · have h6 := (starSize0_good_pos node hstar).2
      rw [hz] at h6
      exact absurd h6 (by norm_num [fontMin])
    · exact Or.inr ⟨hstar, hres⟩
  · have hz : starSize0Of node = 0 := by rw [starSize0Of, if_neg hstar]
    obtain ⟨g1, g2, g3⟩ := adjustSizes_inv (availableHeightOf node)
      (nameSize0Of node) (ownerSize0Of node) (starSize0Of node)
      (nameSize0_good node) (ownerSize0_good node) (Or.inl hz)
    refine ⟨g1, g2, ?_⟩
    rcases g3 with ⟨_, hres⟩ | ⟨hge, _⟩
    · exact Or.inl ⟨hstar, hres⟩
    · rw [hz] at hge
      exact absurd hge (by norm_num [fontMin])

theorem starsText_iff (node : Leaf) :
    starsTextOf node ≠ [] ↔
      (100 ≤ node.data.stars ∧
        truncateWithEllipsis (starsLabelOf node.data) (maxTextWidthOf node)
          (adjustedOf node).2.2 ≠ []) := by
  rcases (adjusted_good node).2.2 with ⟨hnot, hz⟩ | ⟨hstar, _, hge⟩
  · constructor
    · intro h
      exact absurd (by simp [starsTextOf, hz]) h
    · rintro ⟨h100, _⟩
      exact absurd h100 hnot
  · have hpos : 0 < (adjustedOf node).2.2 :=
      lt_of_lt_of_le (by norm_num [fontMin]) hge
    rw [starsTextOf, if_pos hpos]
    exact ⟨fun h => ⟨hstar, h⟩, fun h => h.2⟩

theorem renderLeaf_span_mem (cfg : TreemapConfig) (lo hi : ℚ) (idx : ℕ)
    (node : Leaf) (sp : Tspan)
    (hsp : sp ∈ (renderLeaf cfg lo hi idx node).spans) :
    sp.fontSize = (adjustedOf node).1 ∨
    sp.fontSize = (adjustedOf node).2.1 ∨
    (sp.fontSize = (adjustedOf node).2.2 ∧ starsTextOf node ≠ []) := by
  by_cases hst : starsTextOf node = []
  · simp only [renderLeaf] at hsp
    rw [if_pos hst] at hsp
    rcases List.mem_cons.mp hsp with h | hsp2
    · left; rw [h]
    · rcases List.mem_cons.mp hsp2 with h | hsp3
      · right; left; rw [h]
      · simp at hsp3
  · simp only [renderLeaf] at hsp
    rw [if_neg hst] at hsp
    rcases List.mem_cons.mp hsp with h | hsp2
    · left; rw [h]
    · rcases List.mem_cons.mp hsp2 with h | hsp3
      · right; left; rw [h]
      · right; right
        simp only [List.mem_singleton] at hsp3
        exact ⟨by rw [hsp3], hst⟩

/-- C4: the third (star) text line is emitted iff the star count is at
least 100 and truncating its `"★ " + formatStars(stars)` label at the
final star size yields renderable text; when it is absent the span list
has just the two name/owner lines (no gap reserved). -/
theorem star_line_condition (cfg : TreemapConfig) (lo hi : ℚ) (idx : ℕ)
    (node : Leaf) :
    ((renderLeaf cfg lo hi idx node).spans.length = 2 ∨
      (renderLeaf cfg lo hi idx node).spans.length = 3) ∧
    ((renderLeaf cfg lo hi idx node).spans.length = 3 ↔
      (100 ≤ node.data.stars ∧
        truncateWithEllipsis (starsLabelOf node.data) (maxTextWidthOf node)
          ((renderLeaf cfg lo hi idx node).starSize) ≠ [])) ∧
    (100 ≤ node.data.stars →
      (renderLeaf cfg lo hi idx node).starsLabel =
        '★' :: ' ' :: formatStars node.data.stars) ∧
    (∀ sp ∈ (renderLeaf cfg lo hi idx node).spans.drop 2,
      sp.fontSize = (renderLeaf cfg lo hi idx node).starSize ∧
      sp.content = escapeXml (truncateWithEllipsis (starsLabelOf node.data)
        (maxTextWidthOf node) ((renderLeaf cfg lo hi idx node).starSize))) := by
  have hlab : ∀ h : 100 ≤ node.data.stars,
      (renderLeaf cfg lo hi idx node).starsLabel =
        '★' :: ' ' :: formatStars node.data.stars := by
    intro h
    show starsLabelOf node.data = _
    rw [starsLabelOf, if_pos h]
  by_cases hst : starsTextOf node = []
  · refine ⟨Or.inl ?_, ?_, hlab, ?_⟩
    · simp [renderLeaf, hst]
    · constructor
      · intro hlen
        rw [show (renderLeaf cfg lo hi idx node).spans.length = 2 by
          simp [renderLeaf, hst]] at hlen
        norm_num at hlen
      · intro hcond
        exact absurd ((starsText_iff node).mpr hcond) (by simp [hst])
    · intro sp hsp
      rw [show (renderLeaf cfg lo hi idx node).spans.drop 2 = [] by
        simp [renderLeaf, hst]] at hsp
      simp at hsp
  · have hcond := (starsText_iff node).mp hst
    have hstv : starsTextOf node =
        truncateWithEllipsis (starsLabelOf node.data) (maxTextWidthOf node)
          (adjustedOf node).2.2 := by
      rcases (adjusted_good node).2.2 with ⟨_, hz⟩ | ⟨_, _, hge⟩
      · exact absurd (by simp [starsTextOf, hz]) hst
      · rw [starsTextOf, if_pos (lt_of_lt_of_le (by norm_num [fontMin]) hge)]
    refine ⟨Or.inr ?_, ?_, hlab, ?_⟩
    · simp [renderLeaf, hst]
    · constructor
      · intro _
        exact hcond
      · intro _
        simp [renderLeaf, hst]
    · intro sp hsp
      rw [show (renderLeaf cfg lo hi idx node).spans.drop 2 =
        [⟨leafX node + 4,
          max fontGap ((round ((adjustedOf node).2.2 + fontGap) : ℤ) : ℚ),
          cfg.textPrimary, (adjustedOf node).2.2, 700,
          escapeXml (starsTextOf node)⟩] by simp [renderLeaf, hst]] at hsp
      simp only [List.mem_singleton] at hsp
      subst hsp
      have hproj : (renderLeaf cfg lo hi idx node).starSize =
          (adjustedOf node).2.2 := rfl
      constructor
      · rw [hproj]
      · rw [hproj, ← hstv]

/-- C9: every `font-size` attribute the renderer emits — the `<tspan>`
sizes of every leaf's text block and the empty-state caption's size —
is at least the 6px global minimum, for every configuration and leaf
list; in particular the `0` sentinel of `chooseFontSizeToFit` never
reaches the output. -/
theorem font_sizes_at_least_min (cfg : TreemapConfig) (leaves : List Leaf)
    (q : ℚ) (hq : q ∈ (render cfg leaves).flatMap emittedFontSizes) :
    fontMin ≤ q := by
  rw [render] at hq
  split at hq
  · simp only [renderEmptyState, backgroundElem, List.flatMap_cons,
      List.flatMap_nil, emittedFontSizes, List.nil_append,
      List.append_nil, List.mem_singleton] at hq
    rw [hq, fontMin]
    norm_num
  · obtain ⟨e, he, hqe⟩ := List.mem_flatMap.mp hq
    rcases List.mem_cons.mp he with rfl | he
    · simp [backgroundElem, emittedFontSizes] at hqe
    · rcases List.mem_append.mp he with he2 | he2
      · rcases List.mem_append.mp he2 with he3 | he3
        · obtain ⟨r, _, rfl⟩ := List.mem_map.mp he3
          simp [clipElemOf, emittedFontSizes] at hqe
        · obtain ⟨r, _, rfl⟩ := List.mem_map.mp he3
          simp [rectElemOf, emittedFontSizes] at hqe
      · obtain ⟨r, hr, rfl⟩ := List.mem_map.mp he2
        obtain ⟨p, _, rfl⟩ := List.mem_map.mp hr
        simp only [textElemOf, emittedFontSizes, List.mem_map] at hqe
        obtain ⟨sp, hsp, rfl⟩ := hqe
        rcases renderLeaf_span_mem cfg _ _ p.1 p.2 sp hsp with h | h | ⟨h, hne⟩
        · rw [h]
          exact (adjusted_good p.2).1.2
        · rw [h]
          exact (adjusted_good p.2).2.1.2
        · rw [h]
          rcases (adjusted_good p.2).2.2 with ⟨_, hz⟩ | ⟨_, _, hge⟩
          · exact absurd (by simp [starsTextOf, hz]) hne
          · exact hge

theorem font_sizes_at_least_min_witness :
    (14 : ℚ) ∈ (render DEFAULT_CONFIG []).flatMap emittedFontSizes ∧
    fontMin ≤ (14 : ℚ) :=
  ⟨by decide, font_sizes_at_least_min DEFAULT_CONFIG [] 14 (by decide)⟩

/-- C1: at the 200×36 leaf `leafC1` (28px interior, chosen sizes
12/9/10, total 37 > 28) the scale step produces sizes 9/6/7 whose total
with 3px gaps is exactly 28 and therefore fits, yet the renderer still
decrements them to 8/6/6: the post-scale running total of source line
106 adds `FONT_SIZES.MIN` (6) where the 3px gap between the first two
lines belongs, so the decrement loop runs although the claimed
condition — total with 3px gaps exceeding the available height — is
already false. -/
theorem adjust_sizes_gap_slip :
    adjustSizes 28 12 9 10 = (8, 6, 6) ∧
    max fontMin ((⌊(12 : ℚ) * (28 / 37)⌋ : ℤ) : ℚ) = 9 ∧
    max fontMin ((⌊(9 : ℚ) * (28 / 37)⌋ : ℤ) : ℚ) = 6 ∧
    max fontMin ((⌊(10 : ℚ) * (28 / 37)⌋ : ℤ) : ℚ) = 7 ∧
    (9 : ℚ) + fontGap + 6 + (fontGap + 7) ≤ 28 ∧
    availableHeightOf leafC1 = 28 ∧
    nameSize0Of leafC1 = 12 ∧
    ownerSize0Of leafC1 = 9 ∧
    starSize0Of leafC1 = 10 ∧
    (renderLeaf DEFAULT_CONFIG 2 2 0 leafC1).nameSize = 8 ∧
    (renderLeaf DEFAULT_CONFIG 2 2 0 leafC1).ownerSize = 6 ∧
    (renderLeaf DEFAULT_CONFIG 2 2 0 leafC1).starSize = 6 := by
  have hf1 : (⌊(12 : ℚ) * (28 / 37)⌋ : ℤ) = 9 := by norm_num [Int.floor_eq_iff]
  have hf2 : (⌊(9 : ℚ) * (28 / 37)⌋ : ℤ) = 6 := by norm_num [Int.floor_eq_iff]
  have hf3 : (⌊(10 : ℚ) * (28 / 37)⌋ : ℤ) = 7 := by norm_num [Int.floor_eq_iff]
  have hfit : fitLoop 28 31 9 6 7 = (8, 6, 6) := by
    rw [fitLoop]
    norm_num [dec1, fontMin, fontGap]
    rw [fitLoop]
    norm_num [dec1, fontMin, fontGap]
  have hadj : adjustSizes 28 12 9 10 = (8, 6, 6) := by
    simp only [adjustSizes]
    norm_num [fontGap, fontMin, hf1, hf2, hf3]
    convert hfit using 2
  have hH : leafH leafC1 = 36 := by
    rw [leafH]
    norm_num [leafC1, Int.floor_eq_iff]
  have hW : leafW leafC1 = 200 := by
    rw [leafW]
    norm_num [leafC1, Int.floor_eq_iff]
  have hMTW : maxTextWidthOf leafC1 = 192 := by
    rw [maxTextWidthOf, hW]
    norm_num
  have hAvail : availableHeightOf leafC1 = 28 := by
    rw [availableHeightOf, hH]
    norm_num
  have hND : nameDesiredOf leafC1 = 12 := by
    rw [nameDesiredOf, hH]
    norm_num [Int.floor_eq_iff]
  have hOD : ownerDesiredOf leafC1 = 9 := by
    rw [ownerDesiredOf, hND]
    norm_num [Int.floor_eq_iff, fontMin]
  have hSD : starDesiredOf leafC1 = 10 := by
    rw [starDesiredOf, hND]
    norm_num [Int.floor_eq_iff, fontMin]
  have hch1 : chooseFontSizeToFit ['r', 'e', 'p', 'o'] 192 12 fontMin = 12 := by
    simp only [chooseFontSizeToFit]
    have hs : shrinkLoop ['r', 'e', 'p', 'o'] 192 fontMin
        (max (min (12 : ℚ) 48) fontMin) = 12 := by
      rw [show max (min (12 : ℚ) 48) fontMin = 12 by norm_num [fontMin]]
      rw [shrinkLoop]
      norm_num [estimateTextWidth, fontMin]
    rw [hs]
    norm_num [estimateTextWidth]
  have hch2 : chooseFontSizeToFit ['m', 'e'] 192 9 fontMin = 9 := by
    simp only [chooseFontSizeToFit]
    have hs : shrinkLoop ['m', 'e'] 192 fontMin
        (max (min (9 : ℚ) 48) fontMin) = 9 := by
      rw [show max (min (9 : ℚ) 48) fontMin = 9 by norm_num [fontMin]]
      rw [shrinkLoop]
      norm_num [estimateTextWidth, fontMin]
    rw [hs]
    norm_num [estimateTextWidth]
  have hstars : (100 : ℚ) ≤ leafC1.data.stars := by norm_num [leafC1]
  have hlen : ((starsLabelOf leafC1.data).length : ℚ) = 5 := by
    rw [show (starsLabelOf leafC1.data).length = 5 from by decide]
    norm_num
  have hch3 : chooseFontSizeToFit (starsLabelOf leafC1.data) 192 10
      fontMin = 10 := by
    simp only [chooseFontSizeToFit]
    have hs : shrinkLoop (starsLabelOf leafC1.data) 192 fontMin
        (max (min (10 : ℚ) 48) fontMin) = 10 := by
      rw [show max (min (10 : ℚ) 48) fontMin = 10 by norm_num [fontMin]]
      rw [shrinkLoop]
      norm_num [estimateTextWidth, hlen, fontMin]
    rw [hs]
    norm_num [estimateTextWidth, hlen]
  have hns0 : nameSize0Of leafC1 = 12 := by
    rw [nameSize0Of, show leafC1.data.label = ['r', 'e', 'p', 'o'] from rfl,
      hMTW, hND, hch1]
    norm_num [orFontMin, fontMin]
  have hos0 : ownerSize0Of leafC1 = 9 := by
    rw [ownerSize0Of, show leafC1.data.owner = ['m', 'e'] from rfl,
      hMTW, hOD, hch2]
    norm_num [orFontMin, fontMin]
  have hss0 : starSize0Of leafC1 = 10 := by
    rw [starSize0Of, if_pos hstars, hMTW, hSD, hch3]
    norm_num [orFontMin, fontMin]
  have hadjOf : adjustedOf leafC1 = (8, 6, 6) := by
    rw [adjustedOf, hAvail, hns0, hos0, hss0]
    exact hadj
  refine ⟨hadj, ?_, ?_, ?_, ?_, hAvail, hns0, hos0, hss0, ?_, ?_, ?_⟩
  · rw [hf1]; norm_num [fontMin]
  · rw [hf2]; norm_num [fontMin]
  · rw [hf3]; norm_num [fontMin]
  · norm_num [fontGap]
  · show (adjustedOf leafC1).1 = 8
    rw [hadjOf]
  · show (adjustedOf leafC1).2.1 = 6
    rw [hadjOf]
  · show (adjustedOf leafC1).2.2 = 6
    rw [hadjOf]
